import Mathlib

/-!
Verification of the request-path engine of the `api-gateway-go` repository.

The development shallowly embeds the Go functions the properties talk about:

* `internal/domain/model/route.go` — the `Route` descriptor,
  `MatchRoutePath`, `Route.IsMethodAllowed`, `Route.HasRequiredHeaders`;
* the route `Service` (catalogue) — `GetRoutes`, `GetRouteByPath`,
  `AddRoute`, `UpdateRoute`, `DeleteRoute`, with the cache interaction made
  explicit;
* `pkg/resilience` — the `CircuitBreaker` state machine
  (`allowRequest`, `recordResult`, `Execute` and the transition helpers);
* `pkg/ratelimit/redis_limiter.go` — `RedisLimiter.Allow` together with the
  fixed-window counter script it runs against the backing store;
* `internal/adapter/proxy/proxy.go` — the outbound-request rewriting done by
  the `Director` of the reverse proxy;
* the gateway request handler `Handler.ServeAPI` — the gate that rejects a
  request before it reaches the proxy.

Go strings are modelled as `List Char` (`GoStr`) so that every string
operation used by the source reduces inside the kernel; the helpers below
reproduce the semantics of the `strings` package functions the source calls.
Machine integers (`int`, `int64`) are modelled as `Int`, counters that the
code never makes negative as `Nat`; no arithmetic in the verified fragments
can overflow the Go 64-bit range on the inputs considered.
-/

namespace Gateway

/-- Go strings, modelled as lists of characters. -/
abbrev GoStr := List Char

/-- Semantics of Go `strings.HasPrefix s pre`. -/
def strStartsWith (s pre : GoStr) : Bool :=
  pre.isPrefixOf s

/-- Semantics of Go `strings.HasSuffix s suf`. -/
def strEndsWith (s suf : GoStr) : Bool :=
  suf.isSuffixOf s

/-- Semantics of Go `strings.TrimSuffix s suf`: drop the suffix when it is
present, otherwise return the string unchanged. -/
def strTrimSuffix (s suf : GoStr) : GoStr :=
  if strEndsWith s suf then s.take (s.length - suf.length) else s

/-- Semantics of Go `strings.Split s sep` for a one-character separator:
all substrings between occurrences of the separator, empty pieces kept,
`[""]` for the empty string. -/
def strSplit (c : Char) : GoStr → List GoStr
  | [] => [[]]
  | x :: xs =>
    if x = c then [] :: strSplit c xs
    else
      match strSplit c xs with
      | h :: t => (x :: h) :: t
      | [] => [[x]]

/-- Semantics of Go `strings.Contains s string(c)` for a one-character
needle. -/
def strContainsChar (c : Char) (s : GoStr) : Bool :=
  s.any (fun x => x == c)

/-- Route descriptor, translated field by field from `model.Route`
(`internal/domain/model/route.go`).  The two timestamp fields, which no
verified property reads, are omitted. -/
structure Route where
  Path : GoStr
  ServiceURL : GoStr
  Methods : List GoStr
  Headers : List GoStr
  Description : GoStr
  IsActive : Bool
  CallCount : Int
  TotalResponse : Int
  RequiredHeaders : List GoStr
  deriving DecidableEq

/-- Body of the index loop in the placeholder branch of `MatchRoutePath`:
walk the registered segments; a segment starting with `:` accepts the
aligned request segment unconditionally (the source comment reads
"Placeholder, aceita qualquer valor"), any other segment must be equal.
The loop is only entered after the arity check, so the two lists always
have the same length; the value of the impossible uneven case is
irrelevant. -/
def matchSegments : List GoStr → List GoStr → Bool
  | [], _ => true
  | r :: rs, q :: qs =>
    if strStartsWith r [':'] then matchSegments rs qs
    else if r ≠ q then false
    else matchSegments rs qs
  | _ :: _, [] => true

/-- `model.MatchRoutePath` (`internal/domain/model/route.go`): exact
comparison first, then the trailing-wildcard prefix rule, then placeholder
matching over `/`-separated segments. -/
def MatchRoutePath (registeredPath requestPath : GoStr) : Bool :=
  if registeredPath = requestPath then true
  else if strEndsWith registeredPath ['/', '*'] then
    strStartsWith requestPath (strTrimSuffix registeredPath ['/', '*'])
  else if strContainsChar ':' registeredPath then
    let regParts := strSplit '/' registeredPath
    let reqParts := strSplit '/' requestPath
    if regParts.length ≠ reqParts.length then false
    else matchSegments regParts reqParts
  else false

/-- `Route.IsMethodAllowed` from `internal/domain/model/route.go`. -/
def Route.isMethodAllowed (r : Route) (method : GoStr) : Bool :=
  r.Methods.any (fun m => m == method)

/-- Errors surfaced by the catalogue service, by kind. -/
inductive GWError
  | cacheError
  | storeError
  | routeNotFound
  deriving DecidableEq

/-- Decidable equality for `Except` results, used to evaluate the concrete
scenarios below. -/
instance exceptDecEq {ε α : Type} [DecidableEq ε] [DecidableEq α] :
    DecidableEq (Except ε α) := fun a b =>
  match a, b with
  | .error e1, .error e2 =>
    if h : e1 = e2 then isTrue (by rw [h]) else isFalse (by simp [h])
  | .ok v1, .ok v2 =>
    if h : v1 = v2 then isTrue (by rw [h]) else isFalse (by simp [h])
  | .error _, .ok _ => isFalse (by simp)
  | .ok _, .error _ => isFalse (by simp)

/-- Outcome of a cache `Get`: an error (the returned `err` is non-nil), a
miss, or a hit carrying the decoded value. -/
inductive CacheGet (α : Type)
  | err : CacheGet α
  | miss : CacheGet α
  | hit : α → CacheGet α

/-- The route walk of `Service.GetRouteByPath`: return the first stored
route, in the order the repository returned them, whose pattern matches the
request path. -/
def findMatching (path : GoStr) : List Route → Option Route
  | [] => none
  | r :: rs => if MatchRoutePath r.Path path then some r else findMatching path rs

/-- Read path of `Service.GetRouteByPath` with the cache and store outcomes
as explicit inputs.  A cache hit returns the cached route; a cache error is
logged and the code falls through to the repository exactly as a miss does;
a store error propagates; otherwise the first matching route wins and is
also handed back (second component) for the `cache.Set` under
`route:<path>`, `none` when nothing is written. -/
def getRouteByPathCore (cacheRes : CacheGet Route)
    (storeRes : Option (List Route)) (path : GoStr) :
    Except GWError Route × Option Route :=
  match cacheRes with
  | .hit r => (.ok r, none)
  | _ =>
    match storeRes with
    | none => (.error .storeError, none)
    | some routes =>
      match findMatching path routes with
      | some r => (.ok r, some r)
      | none => (.error .routeNotFound, none)

/-- Read path of `Service.GetRoutes` with the cache and store outcomes as
explicit inputs.  Unlike `GetRouteByPath`, a cache error is returned to the
caller at once; a hit returns the cached list; a miss reads the repository
and hands the list back (second component) for the `cache.Set` under
`"routes"`. -/
def getRoutesCore (cacheRes : CacheGet (List Route))
    (storeRes : Option (List Route)) :
    Except GWError (List Route) × Option (List Route) :=
  match cacheRes with
  | .err => (.error .cacheError, none)
  | .hit rs => (.ok rs, none)
  | .miss =>
    match storeRes with
    | none => (.error .storeError, none)
    | some rs => (.ok rs, some rs)

/-- State of the catalogue service together with its (fault-free, in-memory)
cache: the repository content in the order the store returns it, the cache
entry under key `"routes"`, and the cache entries under keys
`route:<path>`, indexed by `<path>` (the `route:` prefix is injective, so
nothing is lost). -/
structure SysState where
  store : List Route
  cacheRoutes : Option (List Route)
  cacheRoute : GoStr → Option Route

/-- Cache lookup `Service.GetRouteByPath` performs: with no injected
faults, a stored entry is a hit and absence is a miss. -/
def SysState.cacheGetRoute (s : SysState) (path : GoStr) : CacheGet Route :=
  match s.cacheRoute path with
  | some r => .hit r
  | none => .miss

/-- `Service.GetRouteByPath` against the concrete state: run the read path
and apply the `cache.Set` write it requests. -/
def getRouteByPath (s : SysState) (path : GoStr) :
    Except GWError Route × SysState :=
  match getRouteByPathCore (s.cacheGetRoute path) (some s.store) path with
  | (res, some r) =>
    (res, { s with cacheRoute := fun p => if p = path then some r else s.cacheRoute p })
  | (res, none) => (res, s)

/-- `Service.AddRoute`: the repository gains the route (the row order of the
store is modelled as append) and the cache entry `"routes"` is deleted.
The source deletes nothing else. -/
def addRoute (s : SysState) (r : Route) : SysState :=
  { s with store := s.store ++ [r], cacheRoutes := none }

/-- `Service.UpdateRoute`: the repository row for the path is replaced and
the cache entries `route:<path>` and `"routes"` are both deleted. -/
def updateRoute (s : SysState) (r : Route) : SysState :=
  { s with
    store := s.store.map (fun x => if x.Path = r.Path then r else x),
    cacheRoutes := none,
    cacheRoute := fun p => if p = r.Path then none else s.cacheRoute p }

/-- `Service.DeleteRoute`: the repository row for the path is removed and
the cache entries `route:<path>` and `"routes"` are both deleted. -/
def deleteRoute (s : SysState) (path : GoStr) : SysState :=
  { s with
    store := s.store.filter (fun x => !(x.Path = path : Bool)),
    cacheRoutes := none,
    cacheRoute := fun p => if p = path then none else s.cacheRoute p }

/-! ### Circuit breaker (`pkg/resilience`)

Timestamps are integers; `time.Now().After(t)` is the strict comparison
`now > t`.  The fields mirror the Go struct; `failCount` and
`halfOpenRequests` are `Nat` because the source only ever increments them
from zero or resets them to zero. -/

/-- The three values of the Go `CircuitState` enumeration. -/
inductive CircuitState
  | StateClose
  | StateOpen
  | StateHalfOpen
  deriving DecidableEq

/-- Configuration of one breaker after `NewCircuitBreaker` applied its
defaults (`maxFails` and `maxRequests` positive, `timeout` positive). -/
structure CircuitBreaker where
  maxFails : Nat
  timeout : Int
  maxRequests : Nat
  deriving DecidableEq

/-- Mutable state of one breaker, the fields guarded by its mutex. -/
structure CBState where
  state : CircuitState
  failCount : Nat
  lastStateChangeTime : Int
  nextAttemptTime : Int
  halfOpenRequests : Nat
  deriving DecidableEq

/-- `CircuitBreaker.toOpen`: enter the open state and schedule the next
attempt `timeout` after `now`. -/
def toOpen (cb : CircuitBreaker) (s : CBState) (now : Int) : CBState :=
  { s with
    state := .StateOpen,
    lastStateChangeTime := now,
    nextAttemptTime := now + cb.timeout }

/-- `CircuitBreaker.toHalfOpen`: enter the half-open state and reset the
half-open request counter. -/
def toHalfOpen (s : CBState) (now : Int) : CBState :=
  { s with
    state := .StateHalfOpen,
    lastStateChangeTime := now,
    halfOpenRequests := 0 }

/-- `CircuitBreaker.toClose`: enter the closed state and reset the failure
counter. -/
def toClose (s : CBState) (now : Int) : CBState :=
  { s with
    state := .StateClose,
    lastStateChangeTime := now,
    failCount := 0 }

/-- `CircuitBreaker.allowRequest`: closed admits everything; open admits
only once `now` is strictly after `nextAttemptTime`, in which case the
double-checked write-lock region performs the transition to half-open;
half-open admits while `halfOpenRequests < maxRequests`.  The returned
state is the state after the call (the source mutates in place); note that
the half-open branch reads the counter but the source nowhere increments
it. -/
def allowRequest (cb : CircuitBreaker) (s : CBState) (now : Int) :
    Bool × CBState :=
  match s.state with
  | .StateClose => (true, s)
  | .StateOpen =>
    if now > s.nextAttemptTime then (true, toHalfOpen s now) else (false, s)
  | .StateHalfOpen => (s.halfOpenRequests < cb.maxRequests, s)

/-- `CircuitBreaker.recordResult`: in closed, a failure increments
`failCount` and opens the breaker once `failCount ≥ maxFails`, a success
resets the counter; in half-open, a success closes and a failure reopens;
in open the function does nothing. -/
def recordResult (cb : CircuitBreaker) (s : CBState) (success : Bool)
    (now : Int) : CBState :=
  match s.state with
  | .StateClose =>
    if !success then
      let s1 : CBState := { s with failCount := s.failCount + 1 }
      if s1.failCount ≥ cb.maxFails then toOpen cb s1 now else s1
    else { s with failCount := 0 }
  | .StateHalfOpen => if success then toClose s now else toOpen cb s now
  | .StateOpen => s

/-- Observable outcome of `CircuitBreaker.Execute`: either the admission
check fails and the sentinel `ErrCircuitOpen` is returned without invoking
the wrapped function, or the function runs and its success is fed back via
`recordResult`. -/
inductive ExecOutcome
  | rejected
  | invoked (success : Bool)
  deriving DecidableEq

/-- `CircuitBreaker.Execute` for a wrapped call whose outcome is
`fnSuccess`; one timestamp serves the admission check and the result
recording (the two reads of the clock in the source are distinct but
nothing verified here depends on that). -/
def Execute (cb : CircuitBreaker) (s : CBState) (now : Int)
    (fnSuccess : Bool) : ExecOutcome × CBState :=
  match allowRequest cb s now with
  | (true, s1) => (.invoked fnSuccess, recordResult cb s1 fnSuccess now)
  | (false, s1) => (.rejected, s1)

/-- Feed a list of failures, each with its timestamp, through
`recordResult` (the `err != nil` path of `Execute`). -/
def applyFailures (cb : CircuitBreaker) (s : CBState) (ts : List Int) : CBState :=
  ts.foldl (fun st t => recordResult cb st false t) s

/-! ### Rate limiter (`pkg/ratelimit/redis_limiter.go`)

The backing store holds, per key, the window counter and its absolute
expiry (`EXPIREAT`); a key whose expiry is not in the future is absent.
Timestamps are Unix seconds and therefore nonnegative; on nonnegative
arguments the Lean `%` on `Int` agrees with the Go `%`.  The burst factor,
a `float64` in the source, is modelled as the exact nonnegative rational
`burstNum / burstDen`; `int(float64(limit) * burstFactor)` truncates toward
zero, which on the nonnegative products reached here is the floor. -/

/-- Backing store of the limiter: per key, the counter and its absolute
expiry. -/
abbrev RLStore := GoStr → Option (Nat × Int)

/-- Limiter input, from `LimitConfig`: `limit` (`int`), the period in whole
seconds (`int64(config.Period.Seconds())`), and the burst factor as a
rational. -/
structure LimitConfig where
  limit : Int
  periodSeconds : Int
  burstNum : Nat
  burstDen : Nat
  deriving DecidableEq

/-- Errors of `RedisLimiter.Allow`, by kind: the two validation errors and
a backing-store failure. -/
inductive AllowErr
  | invalidLimit
  | invalidPeriod
  | storeError
  deriving DecidableEq

/-- The five return values of `RedisLimiter.Allow`. -/
structure AllowResult where
  allowed : Bool
  limit : Int
  remaining : Int
  resetAfter : Int
  err : Option AllowErr
  deriving DecidableEq

/-- Key the limiter uses in the store: `"ratelimit:" + config.Key`. -/
def redisKey (key : GoStr) : GoStr :=
  ("ratelimit:".toList) ++ key

/-- End of the fixed window containing `now`:
`now - (now % periodSeconds) + periodSeconds`. -/
def windowEnd (now periodSeconds : Int) : Int :=
  now - now % periodSeconds + periodSeconds

/-- The atomic script the limiter runs: `INCR key` (an absent or expired
key starts at 1), `EXPIREAT key expireAt` on the first increment, and the
reply `(count, limit - count, expireAt - now)`. -/
def runScript (st : RLStore) (key : GoStr) (limit expireAt now : Int) :
    (Nat × Int × Int) × RLStore :=
  let live : Option (Nat × Int) :=
    match st key with
    | some (v, exp) => if exp ≤ now then none else some (v, exp)
    | none => none
  match live with
  | none =>
    ((1, limit - 1, expireAt - now),
     fun x => if x = key then some (1, expireAt) else st x)
  | some (v, exp) =>
    ((v + 1, limit - (v + 1 : Nat), expireAt - now),
     fun x => if x = key then some (v + 1, exp) else st x)

/-- The admission threshold `int(float64(limit) * burstFactor)` for a
positive limit and the burst factor `n / d`: `Nat` division is exactly the
floor of the product. -/
def burstLimitN (limit : Int) (n d : Nat) : Nat :=
  limit.toNat * n / d

/-- The burst factor after the default of the source
(`if config.BurstFactor <= 0 { config.BurstFactor = 1.0 }`): a zero
numerator plays the role of a non-positive factor. -/
def cfgBurst (cfg : LimitConfig) : Nat × Nat :=
  if cfg.burstNum = 0 then (1, 1) else (cfg.burstNum, cfg.burstDen)

/-- The admission threshold of a configuration. -/
def cfgBL (cfg : LimitConfig) : Nat :=
  burstLimitN cfg.limit (cfgBurst cfg).1 (cfgBurst cfg).2

/-- `RedisLimiter.Allow` with the store state, the clock and a flag
injecting a backing-store failure as explicit inputs.  Validation rejects
`limit ≤ 0` and `period ≤ 0` but fails open (`admitted = true` with an
error); a store failure also fails open; otherwise the script result
decides `count ≤ burstLimit`. -/
def RedisLimiter.Allow (st : RLStore) (key : GoStr) (cfg : LimitConfig)
    (now : Int) (storeFails : Bool) : AllowResult × RLStore :=
  if cfg.limit ≤ 0 then
    ({ allowed := true, limit := 0, remaining := 0, resetAfter := 0,
       err := some .invalidLimit }, st)
  else if cfg.periodSeconds ≤ 0 then
    ({ allowed := true, limit := 0, remaining := 0, resetAfter := 0,
       err := some .invalidPeriod }, st)
  else
    let expireAt := windowEnd now cfg.periodSeconds
    let resetAfter := expireAt - now
    if storeFails then
      ({ allowed := true, limit := cfg.limit, remaining := cfg.limit,
         resetAfter := resetAfter, err := some .storeError }, st)
    else
      match runScript st (redisKey key) cfg.limit expireAt now with
      | ((count, remaining, ttl), st1) =>
        ({ allowed := count ≤ cfgBL cfg,
           limit := cfg.limit, remaining := remaining,
           resetAfter := ttl, err := none }, st1)

/-- Run `Allow` (with a healthy store) once per timestamp in the list,
threading the store and collecting the admission decisions. -/
def allowSeq (st : RLStore) (key : GoStr) (cfg : LimitConfig) :
    List Int → List Bool × RLStore
  | [] => ([], st)
  | t :: ts =>
    let p := RedisLimiter.Allow st key cfg t false
    let q := allowSeq p.2 key cfg ts
    (p.1.allowed :: q.1, q.2)

/-! ### Reverse-proxy request rewriting (`internal/adapter/proxy/proxy.go`)

The `Director` of the `httputil.ReverseProxy` receives a clone of the
inbound request and rewrites it before the upstream call.  Header tables
are modelled as total maps from name to value, with the empty string for an
absent header, exactly the behaviour of `http.Header.Get`; header names are
compared as written (the source always spells them in canonical form).
The Go HTTP server fills `Request.RemoteAddr` with the client address in
the form `"IP:port"`. -/

/-- The parts of the inbound `*http.Request` the `Director` reads. -/
structure InboundRequest where
  remoteAddr : GoStr
  host : GoStr
  urlPath : GoStr
  rawQuery : GoStr
  headers : GoStr → GoStr

/-- The parts of the outbound request the `Director` writes. -/
structure OutboundRequest where
  scheme : GoStr
  urlHost : GoStr
  urlPath : GoStr
  rawQuery : GoStr
  hostField : GoStr
  headers : GoStr → GoStr

/-- `http.Header.Set`: replace the value stored under a name. -/
def setHeader (h : GoStr → GoStr) (k v : GoStr) : GoStr → GoStr :=
  fun x => if x = k then v else h x

/-- Loop of `parseSchemeHost`: scan for the first `"://"`, accumulating the
scheme seen so far in reverse. -/
def parseSchemeHostAux : GoStr → GoStr → Option (GoStr × GoStr)
  | [], _ => none
  | ':' :: '/' :: '/' :: rest, acc => some (acc.reverse, rest)
  | c :: cs, acc => parseSchemeHostAux cs (c :: acc)

/-- Modelled from the Go standard library: `url.Parse` restricted to the
shape the route invariant guarantees for `serviceURL` (absolute URL,
scheme plus host, no path), yielding `URL.Scheme` and `URL.Host`. -/
def parseSchemeHost (s : GoStr) : Option (GoStr × GoStr) :=
  parseSchemeHostAux s []

/-- Header name `X-Forwarded-For`. -/
def hdrXForwardedFor : GoStr := "X-Forwarded-For".toList

/-- Header name `X-Forwarded-Host`. -/
def hdrXForwardedHost : GoStr := "X-Forwarded-Host".toList

/-- The `Director` closure inside `ReverseProxy.doProxy`, given the parsed
target URL: copy scheme and host from the target, preserve path and query,
set `X-Forwarded-For` to `r.RemoteAddr` and `X-Forwarded-Host` to `r.Host`,
set the `Host` field to the target host, then copy every header listed on
the route whose inbound value is non-empty, and finally apply the
trace-propagation writes (`otel` inject plus `X-Trace-ID`/`X-Span-ID`),
which are outside this repository and passed here as an opaque list of
header writes. -/
def director (route : Route) (target : GoStr × GoStr)
    (inbound : InboundRequest) (traceWrites : List (GoStr × GoStr)) :
    OutboundRequest :=
  let h1 := setHeader inbound.headers hdrXForwardedFor inbound.remoteAddr
  let h2 := setHeader h1 hdrXForwardedHost inbound.host
  let h3 := route.Headers.foldl
    (fun h name =>
      if inbound.headers name ≠ [] then setHeader h name (inbound.headers name) else h)
    h2
  let h4 := traceWrites.foldl (fun h kv => setHeader h kv.1 kv.2) h3
  { scheme := target.1
    urlHost := target.2
    urlPath := inbound.urlPath
    rawQuery := inbound.rawQuery
    hostField := target.2
    headers := h4 }

/-- `doProxy` up to the construction of the outbound request: parse the
route's `serviceURL` (failure answers 500 and performs no upstream call),
then rewrite through the `Director`. -/
def doProxyDirector (route : Route) (inbound : InboundRequest)
    (traceWrites : List (GoStr × GoStr)) : Option OutboundRequest :=
  match parseSchemeHost route.ServiceURL with
  | none => none
  | some target => some (director route target inbound traceWrites)

/-! ### The request gate `Handler.ServeAPI`

The handler resolves the route, rejects inactive routes, disallowed
methods and missing required headers, and only then forwards to the proxy.
`c.GetHeader` returns the empty string for an absent header. -/

/-- Outcome of `Handler.ServeAPI`, one constructor per early return of the
source plus `proxied` for the call into `ReverseProxy.ProxyRequest`. -/
inductive ServeOutcome
  | notFoundResp
  | inactiveResp
  | methodNotAllowedResp
  | missingHeadersResp
  | proxied
  deriving DecidableEq

/-- HTTP status written for each outcome (404, 503 "API não disponível",
405, 400 "Missing required headers"; `proxied` streams the upstream
status, recorded here as 0). -/
def outcomeStatus : ServeOutcome → Nat
  | .notFoundResp => 404
  | .inactiveResp => 503
  | .methodNotAllowedResp => 405
  | .missingHeadersResp => 400
  | .proxied => 0

/-- The header map `ServeAPI` builds before the required-headers check:
one entry per required name whose inbound value is non-empty. -/
def collectHeaders (required : List GoStr) (get : GoStr → GoStr) :
    List (GoStr × GoStr) :=
  required.foldl
    (fun acc name => if get name ≠ [] then acc ++ [(name, get name)] else acc)
    []

/-- `Route.HasRequiredHeaders` from `internal/domain/model/route.go`: every
required name must be a key of the map. -/
def hasRequiredHeaders (r : Route) (hs : List (GoStr × GoStr)) : Bool :=
  r.RequiredHeaders.all (fun req => (hs.find? (fun kv => kv.1 == req)).isSome)

/-- `Handler.ServeAPI` after the route lookup, as a function of the lookup
result, the request method and the inbound header table: the chain of
early returns of the source, ending in the proxy call. -/
def serveAPI (routeRes : Except GWError Route) (method : GoStr)
    (get : GoStr → GoStr) : ServeOutcome :=
  match routeRes with
  | .error _ => .notFoundResp
  | .ok route =>
    if !route.IsActive then .inactiveResp
    else if !(route.isMethodAllowed method) then .methodNotAllowedResp
    else if route.RequiredHeaders.length > 0 then
      if !(hasRequiredHeaders route (collectHeaders route.RequiredHeaders get)) then
        .missingHeadersResp
      else .proxied
    else .proxied

/-! ### Per-segment specification of placeholder matching

Companion predicate for the placeholder rule: equal arity and, position by
position, either a `:` placeholder (accepting the aligned request segment
whatever it is) or equal segments.  It deliberately has no non-emptiness
condition; the development below relates it to `MatchRoutePath`. -/

/-- Equal arity and segment-wise agreement, placeholders accepting any
aligned segment. -/
def segmentsAgree : List GoStr → List GoStr → Bool
  | [], [] => true
  | r :: rs, q :: qs => (strStartsWith r [':'] || r == q) && segmentsAgree rs qs
  | _, _ => false

/-- Placeholder-rule specification over the `/`-separated segments of a
pattern and a request path. -/
def placeholderMatchSpec (P R : GoStr) : Bool :=
  segmentsAgree (strSplit '/' P) (strSplit '/' R)

/-! ### Concrete fixtures used by the counterexamples and witnesses -/

/-- Fixture: wildcard route `/a/*`. -/
def wildRoute : Route :=
  { Path := "/a/*".toList, ServiceURL := "http://w:1".toList,
    Methods := ["GET".toList], Headers := [], Description := [],
    IsActive := true, CallCount := 0, TotalResponse := 0,
    RequiredHeaders := [] }

/-- Fixture: exact route `/a/b`. -/
def exactRoute : Route :=
  { Path := "/a/b".toList, ServiceURL := "http://e:2".toList,
    Methods := ["GET".toList], Headers := [], Description := [],
    IsActive := true, CallCount := 0, TotalResponse := 0,
    RequiredHeaders := [] }

/-- Fixture: placeholder route `/a/:x`. -/
def phRoute : Route :=
  { Path := "/a/:x".toList, ServiceURL := "http://p:3".toList,
    Methods := ["GET".toList], Headers := [], Description := [],
    IsActive := true, CallCount := 0, TotalResponse := 0,
    RequiredHeaders := [] }

/-- Fixture: the route of scenario E1, `/api/users` backed by
`http://u:9000`, with one propagated header and one required header. -/
def usersRoute : Route :=
  { Path := "/api/users".toList, ServiceURL := "http://u:9000".toList,
    Methods := ["GET".toList], Headers := ["X-Request-ID".toList],
    Description := [], IsActive := true, CallCount := 0, TotalResponse := 0,
    RequiredHeaders := ["X-Api-Key".toList] }

/-- Fixture: inbound request from client `10.0.0.1`; the Go HTTP server
presents the peer address including the source port in `RemoteAddr`. -/
def exInbound : InboundRequest :=
  { remoteAddr := "10.0.0.1:54321".toList, host := "gw.example".toList,
    urlPath := "/api/users".toList, rawQuery := [],
    headers := fun _ => [] }

/-! ## Theorems -/

/-! ### Placeholder matching (claim C8) -/

theorem segmentsAgree_refl (l : List GoStr) : segmentsAgree l l = true := by
  induction l with
  | nil => rfl
  | cons a as ih => simp [segmentsAgree, ih]

theorem segmentsAgree_eq_matchSegments (rs : List GoStr) :
    ∀ qs : List GoStr,
      segmentsAgree rs qs =
        (decide (rs.length = qs.length) && matchSegments rs qs) := by
  induction rs with
  | nil => intro qs; cases qs <;> simp [segmentsAgree, matchSegments]
  | cons r rs ih =>
    intro qs
    cases qs with
    | nil => simp [segmentsAgree]
    | cons q qs =>
      by_cases hph : strStartsWith r [':']
      · simp [segmentsAgree, matchSegments, hph, ih qs]
      · by_cases heq : r = q
        · subst heq
          simp [segmentsAgree, matchSegments, hph, ih qs]
        · simp [segmentsAgree, matchSegments, hph, heq]

/-- C8, counterexample.  The claim states that a placeholder segment
matches only non-empty request segments, so that `/weather/:cep` does not
match `/weather/`.  In the source the placeholder branch accepts the
aligned segment unconditionally, and the empty third segment of
`/weather/` is accepted: the pattern does match. -/
theorem matchRoutePath_placeholder_empty_counterexample :
    MatchRoutePath "/weather/:cep".toList "/weather/".toList = true := by
  decide

/-- C8, amended.  In path-pattern matching, a placeholder segment matches
any aligned request segment, including the empty one: for every pattern `P`
containing `:` and not ending in `/*`, `P` matches `R` exactly when the
`/`-split segment lists have equal arity and agree position by position,
placeholders accepting anything; no non-emptiness condition applies, and in
particular `/weather/:cep` does match `/weather/`. -/
theorem matchRoutePath_placeholder_any_value (P R : GoStr)
    (hc : strContainsChar ':' P = true)
    (hw : strEndsWith P ['/', '*'] = false) :
    MatchRoutePath P R = placeholderMatchSpec P R := by
  unfold MatchRoutePath placeholderMatchSpec
  by_cases heq : P = R
  · subst heq
    simp [segmentsAgree_refl]
  · rw [segmentsAgree_eq_matchSegments]
    by_cases hlen : (strSplit '/' P).length = (strSplit '/' R).length
    · simp [heq, hw, hc, hlen]
    · simp [heq, hw, hc, hlen]

/-- C8, witness for the amended theorem at `P = /weather/:cep`,
`R = /weather/`. -/
theorem matchRoutePath_placeholder_any_value_witness :
    strContainsChar ':' "/weather/:cep".toList = true ∧
    strEndsWith "/weather/:cep".toList ['/', '*'] = false ∧
    MatchRoutePath "/weather/:cep".toList "/weather/".toList =
      placeholderMatchSpec "/weather/:cep".toList "/weather/".toList :=
  ⟨by decide, by decide,
   matchRoutePath_placeholder_any_value _ _ (by decide) (by decide)⟩

/-! ### The request gate (claim C10) -/

theorem collectHeaders_mem (names : List GoStr) (get : GoStr → GoStr) :
    ∀ (acc : List (GoStr × GoStr)) (kv : GoStr × GoStr),
      kv ∈ names.foldl
        (fun acc name =>
          if get name ≠ [] then acc ++ [(name, get name)] else acc) acc →
      kv ∈ acc ∨ get kv.1 ≠ [] := by
  induction names with
  | nil => intro acc kv h; exact Or.inl h
  | cons n ns ih =>
    intro acc kv h
    rw [List.foldl_cons] at h
    by_cases hn : get n ≠ []
    · rw [if_pos hn] at h
      rcases ih _ _ h with h1 | h1
      · rcases List.mem_append.mp h1 with h2 | h2
        · exact Or.inl h2
        · have hkv : kv = (n, get n) := by simpa using h2
          subst hkv
          exact Or.inr hn
      · exact Or.inr h1
    · rw [if_neg hn] at h
      exact ih _ _ h

theorem collectHeaders_find_empty (names : List GoStr) (get : GoStr → GoStr)
    (h : GoStr) (hempty : get h = []) :
    (collectHeaders names get).find? (fun kv => kv.1 == h) = none := by
  cases hfind : (collectHeaders names get).find? (fun kv => kv.1 == h) with
  | none => rfl
  | some kv =>
    have hmem := List.mem_of_find?_eq_some hfind
    have hp := List.find?_some hfind
    have hkey : kv.1 = h := eq_of_beq hp
    unfold collectHeaders at hmem
    rcases collectHeaders_mem names get [] kv hmem with h1 | h1
    · simp at h1
    · rw [hkey, hempty] at h1
      simp at h1

/-- C10.  At the public request interface, a required header that is
present with an empty value is treated as absent: `ServeAPI` collects only
headers with non-empty values before the `HasRequiredHeaders` check, so a
request in which some required header has an empty value (and which passes
the earlier active-route and method gates) is rejected with 400 and the
`Missing required headers` body, and never reaches the proxy. -/
theorem serveAPI_empty_required_header_rejected (route : Route)
    (method : GoStr) (get : GoStr → GoStr) (h : GoStr)
    (hAct : route.IsActive = true)
    (hM : route.isMethodAllowed method = true)
    (hmem : h ∈ route.RequiredHeaders) (hempty : get h = []) :
    serveAPI (.ok route) method get = .missingHeadersResp ∧
    outcomeStatus (serveAPI (.ok route) method get) = 400 ∧
    serveAPI (.ok route) method get ≠ .proxied := by
  have hlen : 0 < route.RequiredHeaders.length :=
    List.length_pos.mpr (List.ne_nil_of_mem hmem)
  have hreq : hasRequiredHeaders route
      (collectHeaders route.RequiredHeaders get) = false := by
    unfold hasRequiredHeaders
    cases hall : route.RequiredHeaders.all
        (fun req =>
          ((collectHeaders route.RequiredHeaders get).find?
            (fun kv => kv.1 == req)).isSome) with
    | false => rfl
    | true =>
      have hh := (List.all_eq_true.mp hall) h hmem
      rw [collectHeaders_find_empty _ _ _ hempty] at hh
      simp at hh
  have hmain : serveAPI (.ok route) method get = .missingHeadersResp := by
    simp [serveAPI, hAct, hM, hlen, hreq]
  refine ⟨hmain, by rw [hmain]; rfl, by rw [hmain]; simp⟩

/-- C10, witness: the `/api/users` fixture requires `X-Api-Key`; a request
whose header table is empty everywhere (so the required header carries the
empty value) is answered 400 and not proxied. -/
theorem serveAPI_empty_required_header_rejected_witness :
    usersRoute.IsActive = true ∧
    usersRoute.isMethodAllowed "GET".toList = true ∧
    "X-Api-Key".toList ∈ usersRoute.RequiredHeaders ∧
    (serveAPI (.ok usersRoute) "GET".toList (fun _ => []) =
       .missingHeadersResp ∧
     outcomeStatus (serveAPI (.ok usersRoute) "GET".toList (fun _ => [])) =
       400 ∧
     serveAPI (.ok usersRoute) "GET".toList (fun _ => []) ≠ .proxied) :=
  ⟨by decide, by decide, by decide,
   serveAPI_empty_required_header_rejected usersRoute "GET".toList
     (fun _ => []) "X-Api-Key".toList (by decide) (by decide) (by decide) rfl⟩

/-! ### Rate limiter failure policy (claim C5) -/

/-- C5.  `Allow` never fails closed: when the backing store fails or the
input is invalid (`limit ≤ 0` or `window ≤ 0`), it returns
`admitted = true` together with a non-nil error. -/
theorem allow_fail_open (st : RLStore) (key : GoStr) (cfg : LimitConfig)
    (now : Int) (storeFails : Bool)
    (h : storeFails = true ∨ cfg.limit ≤ 0 ∨ cfg.periodSeconds ≤ 0) :
    (RedisLimiter.Allow st key cfg now storeFails).1.allowed = true ∧
    (RedisLimiter.Allow st key cfg now storeFails).1.err.isSome = true := by
  unfold RedisLimiter.Allow
  rcases h with h | h | h
  · subst h
    by_cases h1 : cfg.limit ≤ 0
    · simp [h1]
    · by_cases h2 : cfg.periodSeconds ≤ 0 <;> simp [h1, h2]
  · simp [h]
  · by_cases h1 : cfg.limit ≤ 0 <;> simp [h1, h]

/-- C5, witness: a store failure on an otherwise valid configuration, and
(separately reachable through the same theorem) nothing else needed. -/
theorem allow_fail_open_witness :
    ((true : Bool) = true ∨ (100 : Int) ≤ 0 ∨ (60 : Int) ≤ 0) ∧
    ((RedisLimiter.Allow (fun _ => none) "ip".toList
        { limit := 100, periodSeconds := 60, burstNum := 3, burstDen := 2 }
        12 true).1.allowed = true ∧
     (RedisLimiter.Allow (fun _ => none) "ip".toList
        { limit := 100, periodSeconds := 60, burstNum := 3, burstDen := 2 }
        12 true).1.err.isSome = true) :=
  ⟨Or.inl rfl,
   allow_fail_open (fun _ => none) _ _ 12 true (Or.inl rfl)⟩

/-! ### Circuit breaker half-open bound (claim C3) -/

/-- C3, evaluation at the failing input.  With `maxRequests = 1`, right
after the open-to-half-open transition and before any outcome is recorded,
the second admission attempt — the `(maxRequests + 1)`-th — is admitted as
well, and the state is left unchanged: `halfOpenRequests` is never
incremented anywhere in the source, so the half-open state admits without
bound instead of rejecting the `(maxRequests + 1)`-th attempt. -/
theorem circuitBreaker_halfOpen_unbounded :
    (let cb : CircuitBreaker := { maxFails := 2, timeout := 30, maxRequests := 1 }
     let s0 : CBState := { state := .StateOpen, failCount := 2,
                           lastStateChangeTime := 0, nextAttemptTime := 30,
                           halfOpenRequests := 0 }
     let s1 := toHalfOpen s0 40
     (allowRequest cb s1 41).1 = true ∧
     (allowRequest cb (allowRequest cb s1 41).2 42).1 = true ∧
     (allowRequest cb (allowRequest cb s1 41).2 42).2 = s1) := by
  decide

/-! ### Cache errors on catalogue reads (claim C7) -/

/-- C7, counterexample.  The claim states that both `GetRouteByPath` and
`GetRoutes` fall through to the store when the cache `Get` fails.
`GetRoutes` does not: on a cache error it returns that error at once even
though the store would have answered. -/
theorem getRoutes_cache_error_counterexample :
    getRoutesCore .err (some [wildRoute]) = (.error .cacheError, none) ∧
    getRoutesCore .miss (some [wildRoute]) =
      (.ok [wildRoute], some [wildRoute]) :=
  ⟨rfl, rfl⟩

/-- C7, amended.  A cache read error is logged and ignored only by
`GetRouteByPath`, which then behaves exactly as on a miss and falls
through to the store; `GetRoutes` propagates the cache error to its caller
without consulting the store. -/
theorem cache_read_error_policy :
    (∀ (storeRes : Option (List Route)) (path : GoStr),
       getRouteByPathCore .err storeRes path =
         getRouteByPathCore .miss storeRes path) ∧
    (∀ storeRes : Option (List Route),
       getRoutesCore .err storeRes = (.error .cacheError, none)) :=
  ⟨fun _ _ => rfl, fun _ => rfl⟩

/-! ### Route selection order (claim C1) -/

/-- C1, counterexample.  With the patterns `/a/*`, `/a/b`, `/a/:x`
registered and the store returning them in that order, `GetRouteByPath`
for `/a/b` returns the wildcard route, not the exact one: the walk stops
at the first match in store order, so the winner is not the exact pattern
and depends on the order in which the store returns the routes. -/
theorem getRouteByPath_storeOrder_counterexample :
    ((getRouteByPath
        { store := [wildRoute, exactRoute, phRoute],
          cacheRoutes := none, cacheRoute := fun _ => none }
        "/a/b".toList).1 = .ok wildRoute) ∧
    wildRoute ≠ exactRoute ∧
    MatchRoutePath exactRoute.Path "/a/b".toList = true := by
  refine ⟨?_, by decide, by decide⟩
  decide

/-- C1, amended.  On a cache miss, `GetRouteByPath` returns the first
route, in the order the store returns them, whose pattern matches the
request path (`NotFound` when none does); there is no
exact-over-placeholder-over-wildcard priority.  In particular, with the
store order `/a/b`, `/a/:x`, `/a/*` the exact pattern is selected for
`/a/b` — because it comes first, not because it is exact. -/
theorem getRouteByPath_first_match :
    (∀ (store : List Route) (path : GoStr),
       (getRouteByPath
           { store := store, cacheRoutes := none, cacheRoute := fun _ => none }
           path).1 =
         (match findMatching path store with
          | some r => .ok r
          | none => .error .routeNotFound)) ∧
    (getRouteByPath
        { store := [exactRoute, phRoute, wildRoute],
          cacheRoutes := none, cacheRoute := fun _ => none }
        "/a/b".toList).1 = .ok exactRoute := by
  constructor
  · intro store path
    unfold getRouteByPath getRouteByPathCore SysState.cacheGetRoute
    cases h : findMatching path store <;> simp [h]
  · decide

/-! ### Cache invalidation on mutations (claim C6) -/

/-- C6, counterexample.  Start with only the wildcard route `/a/*` in the
store; a lookup of `/a/b` caches the wildcard descriptor under
`route:/a/b`.  Then `AddRoute` registers the exact route `/a/b`.  The
claim says both cache keys are now deleted and the next
`GetRouteByPath(/a/b)` does not return the pre-mutation descriptor; in the
source `AddRoute` deletes only `"routes"`, the stale `route:/a/b` entry
survives, and the next lookup returns the pre-mutation wildcard
descriptor. -/
theorem addRoute_stale_cache_counterexample :
    (let s0 : SysState := { store := [wildRoute], cacheRoutes := none,
                            cacheRoute := fun _ => none }
     let r1 := getRouteByPath s0 "/a/b".toList
     let s2 := addRoute r1.2 exactRoute
     r1.1 = .ok wildRoute ∧
     s2.cacheRoute "/a/b".toList = some wildRoute ∧
     (getRouteByPath s2 "/a/b".toList).1 = .ok wildRoute ∧
     wildRoute ≠ exactRoute ∧ exactRoute.Path = "/a/b".toList) := by
  decide

/-- C6, amended.  A successful `UpdateRoute` or `DeleteRoute` for a route
with path `p` deletes both cache entries `"routes"` and `route:<p>`, so
the next `GetRouteByPath(p)` misses the cache and consults the store;
`AddRoute` deletes only `"routes"` and leaves every `route:<path>` entry
in place, so after `AddRoute` a stale `route:<p>` entry may still be
served. -/
theorem mutation_cache_invalidation :
    (∀ (s : SysState) (r : Route),
       (updateRoute s r).cacheRoutes = none ∧
       (updateRoute s r).cacheRoute r.Path = none ∧
       (updateRoute s r).cacheGetRoute r.Path = .miss) ∧
    (∀ (s : SysState) (p : GoStr),
       (deleteRoute s p).cacheRoutes = none ∧
       (deleteRoute s p).cacheRoute p = none ∧
       (deleteRoute s p).cacheGetRoute p = .miss) ∧
    (∀ (s : SysState) (r : Route),
       (addRoute s r).cacheRoutes = none ∧
       (addRoute s r).cacheRoute = s.cacheRoute) := by
  refine ⟨fun s r => ?_, fun s p => ?_, fun s r => ?_⟩ <;>
    simp [updateRoute, deleteRoute, addRoute, SysState.cacheGetRoute]

/-! ### Circuit breaker closed/open contract (claim C2) -/

theorem applyFailures_cons (cb : CircuitBreaker) (s : CBState) (t : Int)
    (ts : List Int) :
    applyFailures cb s (t :: ts) =
      applyFailures cb (recordResult cb s false t) ts := rfl

theorem recordResult_closed_fail (cb : CircuitBreaker) (s : CBState)
    (t : Int) (hs : s.state = .StateClose) :
    recordResult cb s false t =
      (if s.failCount + 1 ≥ cb.maxFails then
        toOpen cb { s with failCount := s.failCount + 1 } t
       else { s with failCount := s.failCount + 1 }) := by
  obtain ⟨st, fc, lt, na, ho⟩ := s
  simp only at hs
  subst hs
  rfl

theorem applyFailures_closed_run (cb : CircuitBreaker) :
    ∀ (init : List Int) (s : CBState) (tl : Int),
      s.state = .StateClose →
      s.failCount + init.length + 1 = cb.maxFails →
      (applyFailures cb s (init ++ [tl])).state = .StateOpen ∧
      (applyFailures cb s (init ++ [tl])).nextAttemptTime = tl + cb.timeout := by
  intro init
  induction init with
  | nil =>
    intro s tl hs hc
    have hge : s.failCount + 1 ≥ cb.maxFails := by
      simp at hc
      omega
    simp [applyFailures, recordResult_closed_fail cb s tl hs, hge, toOpen]
  | cons t ts ih =>
    intro s tl hs hc
    simp only [List.cons_append, applyFailures_cons]
    rw [recordResult_closed_fail cb s t hs]
    have hlt : ¬ (s.failCount + 1 ≥ cb.maxFails) := by
      simp at hc
      omega
    rw [if_neg hlt]
    refine ih { s with failCount := s.failCount + 1 } tl (by simp [hs]) ?_
    simp at hc ⊢
    omega

/-- C2.  Starting from the closed state with a zero failure counter,
`maxFails` consecutive recorded failures (no intervening success) drive
the breaker to open with `nextAttempt = now + timeout`, `now` being the
time of the last failure; while open and strictly before `nextAttempt`,
`Execute` returns the circuit-open sentinel, does not invoke the wrapped
function, and leaves the state unchanged; and in closed a recorded
success resets the failure counter to zero. -/
theorem circuitBreaker_closed_open_contract :
    (∀ (cb : CircuitBreaker) (s : CBState) (init : List Int) (tl : Int),
       s.state = .StateClose → s.failCount = 0 →
       init.length + 1 = cb.maxFails →
       (applyFailures cb s (init ++ [tl])).state = .StateOpen ∧
       (applyFailures cb s (init ++ [tl])).nextAttemptTime =
         tl + cb.timeout) ∧
    (∀ (cb : CircuitBreaker) (s : CBState) (now : Int) (fnSuccess : Bool),
       s.state = .StateOpen → now < s.nextAttemptTime →
       Execute cb s now fnSuccess = (.rejected, s)) ∧
    (∀ (cb : CircuitBreaker) (s : CBState) (now : Int),
       s.state = .StateClose →
       (recordResult cb s true now).failCount = 0) := by
  refine ⟨?_, ?_, ?_⟩
  · intro cb s init tl hs hfc hlen
    exact applyFailures_closed_run cb init s tl hs (by omega)
  · intro cb s now fnSuccess hs hlt
    obtain ⟨st, fc, lt, na, ho⟩ := s
    simp only at hs hlt
    subst hs
    have : ¬ (now > na) := by omega
    simp [Execute, allowRequest, this]
  · intro cb s now hs
    obtain ⟨st, fc, lt, na, ho⟩ := s
    simp only at hs
    subst hs
    rfl

/-- C2, witness: `maxFails = 2`, `timeout = 30`; two failures at times 5
and 9 open the breaker with `nextAttempt = 39`; at time 20 the sentinel is
returned and the wrapped call is not made; a success in closed resets the
counter. -/
theorem circuitBreaker_closed_open_contract_witness :
    (({ state := .StateClose, failCount := 0, lastStateChangeTime := 0,
        nextAttemptTime := 0, halfOpenRequests := 0 } : CBState).state =
       .StateClose ∧
     (applyFailures { maxFails := 2, timeout := 30, maxRequests := 1 }
        { state := .StateClose, failCount := 0, lastStateChangeTime := 0,
          nextAttemptTime := 0, halfOpenRequests := 0 }
        ([5] ++ [9])).state = .StateOpen ∧
     (applyFailures { maxFails := 2, timeout := 30, maxRequests := 1 }
        { state := .StateClose, failCount := 0, lastStateChangeTime := 0,
          nextAttemptTime := 0, halfOpenRequests := 0 }
        ([5] ++ [9])).nextAttemptTime = 9 + 30) ∧
    Execute { maxFails := 2, timeout := 30, maxRequests := 1 }
      { state := .StateOpen, failCount := 2, lastStateChangeTime := 9,
        nextAttemptTime := 39, halfOpenRequests := 0 } 20 true =
      (.rejected,
       { state := .StateOpen, failCount := 2, lastStateChangeTime := 9,
         nextAttemptTime := 39, halfOpenRequests := 0 }) ∧
    (recordResult { maxFails := 2, timeout := 30, maxRequests := 1 }
      { state := .StateClose, failCount := 1, lastStateChangeTime := 0,
        nextAttemptTime := 0, halfOpenRequests := 0 } true 7).failCount = 0 :=
  ⟨⟨rfl,
    (circuitBreaker_closed_open_contract.1 _ _ [5] 9 rfl rfl (by decide)).1,
    (circuitBreaker_closed_open_contract.1 _ _ [5] 9 rfl rfl (by decide)).2⟩,
   circuitBreaker_closed_open_contract.2.1 _ _ 20 true rfl (by decide),
   circuitBreaker_closed_open_contract.2.2 _ _ 7 rfl⟩

/-! ### Outbound request rewriting (claim C9) -/

theorem routeHeadersFold_ne (inb : GoStr → GoStr) (names : List GoStr) :
    ∀ (h : GoStr → GoStr) (k : GoStr), k ∉ names →
      (names.foldl
        (fun h2 name =>
          if inb name ≠ [] then setHeader h2 name (inb name) else h2) h) k =
        h k := by
  induction names with
  | nil => intro h k _; rfl
  | cons n ns ih =>
    intro h k hk
    have hkn : k ≠ n := fun he => hk (he ▸ List.mem_cons_self n ns)
    have hkns : k ∉ ns := fun hm => hk (List.mem_cons_of_mem n hm)
    rw [List.foldl_cons]
    by_cases hn : inb n ≠ []
    · rw [if_pos hn, ih _ k hkns]
      simp [setHeader, hkn]
    · rw [if_neg hn, ih _ k hkns]

theorem routeHeadersFold_mem (inb : GoStr → GoStr) (names : List GoStr) :
    ∀ (h : GoStr → GoStr) (k : GoStr), k ∈ names → inb k ≠ [] →
      (names.foldl
        (fun h2 name =>
          if inb name ≠ [] then setHeader h2 name (inb name) else h2) h) k =
        inb k := by
  induction names with
  | nil => intro h k hk; exact absurd hk (List.not_mem_nil k)
  | cons n ns ih =>
    intro h k hk hne
    rw [List.foldl_cons]
    by_cases hmem : k ∈ ns
    · by_cases hn : inb n ≠ []
      · rw [if_pos hn]; exact ih _ k hmem hne
      · rw [if_neg hn]; exact ih _ k hmem hne
    · have hkn : k = n := by
        rcases List.mem_cons.mp hk with h1 | h1
        · exact h1
        · exact absurd h1 hmem
      subst hkn
      rw [if_pos hne, routeHeadersFold_ne inb ns _ k hmem]
      simp [setHeader]

theorem traceFold_ne (ws : List (GoStr × GoStr)) :
    ∀ (h : GoStr → GoStr) (k : GoStr), (∀ kv ∈ ws, kv.1 ≠ k) →
      (ws.foldl (fun h2 kv => setHeader h2 kv.1 kv.2) h) k = h k := by
  induction ws with
  | nil => intro h k _; rfl
  | cons w ws ih =>
    intro h k hk
    rw [List.foldl_cons, ih _ k (fun kv hm => hk kv (List.mem_cons_of_mem w hm))]
    have hw : w.1 ≠ k := hk w (List.mem_cons_self w ws)
    have hkw : ¬ (k = w.1) := fun he => hw he.symm
    simp [setHeader, hkw]

/-- C9, counterexample.  For the E1 request from client `10.0.0.1` — whose
peer address the Go HTTP server reports as `RemoteAddr = "10.0.0.1:54321"`
— the `Director` sets `X-Forwarded-For` to the whole remote address,
port included, not to the bare client IP `10.0.0.1` the claim states the
upstream receives. -/
theorem director_xForwardedFor_counterexample :
    (director usersRoute ("http".toList, "u:9000".toList) exInbound []).headers
        hdrXForwardedFor = "10.0.0.1:54321".toList ∧
    exInbound.remoteAddr = "10.0.0.1:54321".toList ∧
    "10.0.0.1:54321".toList ≠ "10.0.0.1".toList := by
  refine ⟨?_, rfl, by decide⟩
  decide

/-- C9, amended.  For every proxied request the outbound request carries
`X-Forwarded-For` equal to the inbound `RemoteAddr` — the client address
as `IP:port`, not the bare IP — `X-Forwarded-Host` equal to the original
inbound `Host`, the `Host` field rewritten to the upstream host parsed
from the route's `serviceURL`, path and query preserved, and, for each
header name listed in the route's `headers`, the inbound value whenever it
is non-empty; provided the listed names and the trace-propagation writes
do not themselves name the two forwarding headers. -/
theorem director_header_rewrites (route : Route) (inbound : InboundRequest)
    (traceWrites : List (GoStr × GoStr)) (sch hst : GoStr)
    (hparse : parseSchemeHost route.ServiceURL = some (sch, hst))
    (hXF : hdrXForwardedFor ∉ route.Headers)
    (hXH : hdrXForwardedHost ∉ route.Headers)
    (htr : ∀ kv ∈ traceWrites,
       kv.1 ≠ hdrXForwardedFor ∧ kv.1 ≠ hdrXForwardedHost ∧
       kv.1 ∉ route.Headers) :
    ∃ out, doProxyDirector route inbound traceWrites = some out ∧
      out.headers hdrXForwardedFor = inbound.remoteAddr ∧
      out.headers hdrXForwardedHost = inbound.host ∧
      out.hostField = hst ∧ out.urlHost = hst ∧ out.scheme = sch ∧
      out.urlPath = inbound.urlPath ∧ out.rawQuery = inbound.rawQuery ∧
      (∀ name ∈ route.Headers, inbound.headers name ≠ [] →
        out.headers name = inbound.headers name) := by
  refine ⟨director route (sch, hst) inbound traceWrites, ?_, ?_, ?_, rfl, rfl,
    rfl, rfl, rfl, ?_⟩
  · unfold doProxyDirector
    rw [hparse]
  · show (director route (sch, hst) inbound traceWrites).headers
        hdrXForwardedFor = inbound.remoteAddr
    simp only [director]
    rw [traceFold_ne _ _ _ (fun kv hm => (htr kv hm).1),
        routeHeadersFold_ne _ _ _ _ hXF]
    simp [setHeader, show ¬ (hdrXForwardedFor = hdrXForwardedHost) from by decide]
  · show (director route (sch, hst) inbound traceWrites).headers
        hdrXForwardedHost = inbound.host
    simp only [director]
    rw [traceFold_ne _ _ _ (fun kv hm => (htr kv hm).2.1),
        routeHeadersFold_ne _ _ _ _ hXH]
    simp [setHeader]
  · intro name hmem hne
    show (director route (sch, hst) inbound traceWrites).headers name =
      inbound.headers name
    simp only [director]
    rw [traceFold_ne _ _ _ (fun kv hm he => (htr kv hm).2.2 (he ▸ hmem)),
        routeHeadersFold_mem _ _ _ _ hmem hne]

/-- C9, witness for the amended theorem on the E1 fixture: route
`/api/users` to `http://u:9000` listing `X-Request-ID`, an inbound request
carrying `X-Request-ID: trace-1`, and no trace writes. -/
theorem director_header_rewrites_witness :
    parseSchemeHost usersRoute.ServiceURL =
      some ("http".toList, "u:9000".toList) ∧
    hdrXForwardedFor ∉ usersRoute.Headers ∧
    hdrXForwardedHost ∉ usersRoute.Headers ∧
    (∃ out,
      doProxyDirector usersRoute
          { exInbound with
            headers := fun k =>
              if k = "X-Request-ID".toList then "trace-1".toList else [] }
          [] = some out ∧
      out.headers hdrXForwardedFor =
        ({ exInbound with
           headers := fun k =>
             if k = "X-Request-ID".toList then "trace-1".toList else [] }
          : InboundRequest).remoteAddr ∧
      out.headers hdrXForwardedHost =
        ({ exInbound with
           headers := fun k =>
             if k = "X-Request-ID".toList then "trace-1".toList else [] }
          : InboundRequest).host ∧
      out.hostField = "u:9000".toList ∧ out.urlHost = "u:9000".toList ∧
      out.scheme = "http".toList ∧
      out.urlPath =
        ({ exInbound with
           headers := fun k =>
             if k = "X-Request-ID".toList then "trace-1".toList else [] }
          : InboundRequest).urlPath ∧
      out.rawQuery =
        ({ exInbound with
           headers := fun k =>
             if k = "X-Request-ID".toList then "trace-1".toList else [] }
          : InboundRequest).rawQuery ∧
      (∀ name ∈ usersRoute.Headers,
        ({ exInbound with
           headers := fun k =>
             if k = "X-Request-ID".toList then "trace-1".toList else [] }
          : InboundRequest).headers name ≠ [] →
        out.headers name =
          ({ exInbound with
             headers := fun k =>
               if k = "X-Request-ID".toList then "trace-1".toList else [] }
            : InboundRequest).headers name)) :=
  ⟨by decide, by decide, by decide,
   director_header_rewrites usersRoute _ [] "http".toList "u:9000".toList
     (by decide) (by decide) (by decide) (by intro kv hm; simp at hm)⟩

/-! ### Fixed-window rate limiting (claim C4) -/

theorem windowEnd_gt (t W : Int) (hW : 0 < W) : t < windowEnd t W := by
  have h1 : t % W < W := Int.emod_lt_of_pos t hW
  have h2 : 0 ≤ t % W := Int.emod_nonneg t (by omega)
  unfold windowEnd
  omega

theorem allow_step (st : RLStore) (key : GoStr) (cfg : LimitConfig)
    (k : Nat) (E t : Int)
    (hL : 0 < cfg.limit) (hW : 0 < cfg.periodSeconds)
    (hE : windowEnd t cfg.periodSeconds = E)
    (hst : st (redisKey key) = (if k = 0 then none else some (k, E))) :
    RedisLimiter.Allow st key cfg t false =
      ({ allowed := decide (k + 1 ≤ cfgBL cfg), limit := cfg.limit,
         remaining := cfg.limit - ((k : Int) + 1), resetAfter := E - t,
         err := none },
       fun x => if x = redisKey key then some (k + 1, E) else st x) := by
  have hnl : ¬ (cfg.limit ≤ 0) := by omega
  have hnp : ¬ (cfg.periodSeconds ≤ 0) := by omega
  have hEt : ¬ (E ≤ t) := by
    have := windowEnd_gt t cfg.periodSeconds hW
    omega
  by_cases hk : k = 0
  · subst hk
    simp only [if_pos rfl] at hst
    simp [RedisLimiter.Allow, runScript, hst, hnl, hnp, hE]
  · simp only [if_neg hk] at hst
    simp [RedisLimiter.Allow, runScript, hst, hnl, hnp, hE, hEt]

theorem allowSeq_window (cfg : LimitConfig) (key : GoStr) (E : Int)
    (hL : 0 < cfg.limit) (hW : 0 < cfg.periodSeconds) :
    ∀ (times : List Int) (k : Nat) (st : RLStore),
      (∀ t ∈ times, windowEnd t cfg.periodSeconds = E) →
      st (redisKey key) = (if k = 0 then none else some (k, E)) →
      (allowSeq st key cfg times).1 =
        (List.range times.length).map
          (fun i => decide (k + i + 1 ≤ cfgBL cfg)) ∧
      (allowSeq st key cfg times).2 (redisKey key) =
        (if k + times.length = 0 then none
         else some (k + times.length, E)) := by
  intro times
  induction times with
  | nil =>
    intro k st _ hst
    simpa [allowSeq] using hst
  | cons t ts ih =>
    intro k st hwin hst
    have hstep := allow_step st key cfg k E t hL hW
      (hwin t (List.mem_cons_self t ts)) hst
    obtain ⟨ih1, ih2⟩ := ih (k + 1)
      (fun x => if x = redisKey key then some (k + 1, E) else st x)
      (fun t2 hm => hwin t2 (List.mem_cons_of_mem t hm)) (by simp)
    constructor
    · simp only [allowSeq, hstep]
      rw [ih1]
      have harith : ∀ i : Nat, k + 1 + i + 1 = k + (i + 1) + 1 := by omega
      simp [List.range_succ_eq_map, List.map_map, Function.comp, harith]
    · simp only [allowSeq, hstep]
      rw [ih2]
      have harith : k + 1 + ts.length = k + (ts.length + 1) := by omega
      simp [harith]

theorem allow_step_fresh (st : RLStore) (key : GoStr) (cfg : LimitConfig)
    (t : Int) (hL : 0 < cfg.limit) (hW : 0 < cfg.periodSeconds)
    (hst : ∀ v exp, st (redisKey key) = some (v, exp) → exp ≤ t) :
    (RedisLimiter.Allow st key cfg t false).1.allowed =
      decide (1 ≤ cfgBL cfg) := by
  have hnl : ¬ (cfg.limit ≤ 0) := by omega
  have hnp : ¬ (cfg.periodSeconds ≤ 0) := by omega
  cases hkey : st (redisKey key) with
  | none => simp [RedisLimiter.Allow, runScript, hkey, hnl, hnp]
  | some p =>
    obtain ⟨v, exp⟩ := p
    have hexp : exp ≤ t := hst v exp hkey
    simp [RedisLimiter.Allow, runScript, hkey, hnl, hnp, hexp]

theorem cfgBL_eq_floor (cfg : LimitConfig) (hbn : 0 < cfg.burstNum)
    (hbd : 0 < cfg.burstDen) :
    cfgBL cfg =
      Nat.floor ((cfg.limit.toNat : ℚ) *
        ((cfg.burstNum : ℚ) / (cfg.burstDen : ℚ))) := by
  unfold cfgBL cfgBurst burstLimitN
  rw [if_neg hbn.ne']
  have hcast : (cfg.limit.toNat : ℚ) *
      ((cfg.burstNum : ℚ) / (cfg.burstDen : ℚ)) =
      ((cfg.limit.toNat * cfg.burstNum : ℕ) : ℚ) / ((cfg.burstDen : ℕ) : ℚ) := by
    push_cast
    ring
  rw [hcast, Nat.floor_div_nat, Nat.floor_natCast]

/-- C4, amended.  For every key, limit `L > 0`, window `W > 0` (whole
seconds) and burst factor `b = n/d > 0`, within one fixed window the
`i`-th call to `Allow` is admitted exactly when `i ≤ ⌊L·b⌋`, so exactly
`⌊L·b⌋` calls are admitted and the `(⌊L·b⌋+1)`-th is rejected; the
per-window counter expires at the window end, so the first call falling in
the next window is again admitted exactly when `1 ≤ ⌊L·b⌋` — admitted
again when `⌊L·b⌋ ≥ 1`, but rejected when `⌊L·b⌋ = 0`. -/
theorem allow_fixed_window_law (cfg : LimitConfig) (key : GoStr)
    (times : List Int) (st : RLStore) (E : Int)
    (hL : 0 < cfg.limit) (hW : 0 < cfg.periodSeconds)
    (hbn : 0 < cfg.burstNum) (hbd : 0 < cfg.burstDen)
    (hwin : ∀ t ∈ times, windowEnd t cfg.periodSeconds = E)
    (hfresh : st (redisKey key) = none) :
    (allowSeq st key cfg times).1 =
      (List.range times.length).map
        (fun i =>
          decide (i + 1 ≤
            Nat.floor ((cfg.limit.toNat : ℚ) *
              ((cfg.burstNum : ℚ) / (cfg.burstDen : ℚ))))) ∧
    (∀ t2, E ≤ t2 →
       (RedisLimiter.Allow (allowSeq st key cfg times).2 key cfg t2
           false).1.allowed =
         decide (1 ≤
           Nat.floor ((cfg.limit.toNat : ℚ) *
             ((cfg.burstNum : ℚ) / (cfg.burstDen : ℚ))))) := by
  have hbl := cfgBL_eq_floor cfg hbn hbd
  obtain ⟨h1, h2⟩ := allowSeq_window cfg key E hL hW times 0 st hwin
    (by simpa using hfresh)
  constructor
  · rw [h1, ← hbl]
    simp
  · intro t2 ht2
    rw [← hbl]
    apply allow_step_fresh _ _ _ _ hL hW
    intro v exp hsome
    rw [h2] at hsome
    by_cases hlen : 0 + times.length = 0
    · rw [if_pos hlen] at hsome
      cases hsome
    · rw [if_neg hlen] at hsome
      have hexp : exp = E := by
        have := congrArg (fun o => Option.map Prod.snd o) hsome
        simpa using this.symm
      omega

/-- C4, witness: `L = 2`, `W = 60`, `b = 3/2`, so `⌊L·b⌋ = 3`; four calls
in the window starting at 0 are decided `[true, true, true, false]`, and a
call at 60 (the next window) is decided by `1 ≤ 3` again. -/
theorem allow_fixed_window_law_witness :
    (0 : Int) < 2 ∧ (0 : Int) < 60 ∧ (0 : Nat) < 3 ∧ (0 : Nat) < 2 ∧
    (∀ t ∈ [(0 : Int), 10, 20, 30], windowEnd t 60 = 60) ∧
    ((allowSeq (fun _ => none) "k".toList
        { limit := 2, periodSeconds := 60, burstNum := 3, burstDen := 2 }
        [0, 10, 20, 30]).1 =
      (List.range 4).map
        (fun i =>
          decide (i + 1 ≤
            Nat.floor (((2 : Int).toNat : ℚ) * ((3 : ℚ) / (2 : ℚ))))) ∧
     (∀ t2, (60 : Int) ≤ t2 →
        (RedisLimiter.Allow
            (allowSeq (fun _ => none) "k".toList
              { limit := 2, periodSeconds := 60, burstNum := 3, burstDen := 2 }
              [0, 10, 20, 30]).2 "k".toList
            { limit := 2, periodSeconds := 60, burstNum := 3, burstDen := 2 }
            t2 false).1.allowed =
          decide (1 ≤
            Nat.floor (((2 : Int).toNat : ℚ) * ((3 : ℚ) / (2 : ℚ)))))) :=
  ⟨by decide, by decide, by decide, by decide, by decide,
   allow_fixed_window_law
     { limit := 2, periodSeconds := 60, burstNum := 3, burstDen := 2 }
     "k".toList [0, 10, 20, 30] (fun _ => none) 60
     (by decide) (by decide) (by decide) (by decide) (by decide) rfl⟩

/-- C4, counterexample.  With `L = 1`, `W = 60` and `b = 1/2` — all
admissible under the claim's `L > 0`, `W > 0`, `b > 0` — we have
`⌊L·b⌋ = 0`; the first call of the window starting at 0 is rejected, and
the first call falling in the next window (time 60) is rejected as well,
whereas the claim asserts the first call of the next window is admitted. -/
theorem allow_next_window_rejected_counterexample :
    (let cfg : LimitConfig :=
       { limit := 1, periodSeconds := 60, burstNum := 1, burstDen := 2 }
     let st0 : RLStore := fun _ => none
     let r1 := RedisLimiter.Allow st0 "c".toList cfg 0 false
     let r2 := RedisLimiter.Allow r1.2 "c".toList cfg 60 false
     windowEnd 0 60 = 60 ∧ windowEnd 60 60 = 120 ∧
     r1.1.allowed = false ∧ r2.1.allowed = false) ∧
    Nat.floor ((1 : ℚ) * ((1 : ℚ) / (2 : ℚ))) = 0 := by
  constructor
  · exact ⟨by decide, by decide, by decide, by decide⟩
  · rw [Nat.floor_eq_zero]
    norm_num

end Gateway
